import Mathlib

/-!
Verification development for the hedera-sentry analysis pipeline.

The definitions below are a shallow embedding of the TypeScript sources:

* `src/backend/src/server.ts` (HTTP handlers),
* `src/backend/src/utils.ts` (`safeJsonChatCompletion`),
* `src/backend/src/chunker/chunker.ts` (`UniversalChunker`),
* `src/backend/src/chunker/strategies` (`BaseStrategy.fallbackSplitter`),
* `src/main.ts` / `src/scorer.ts` (`ScoringEngine`).

Conventions of the embedding:

* JavaScript numbers used as token counters are modelled as `Nat`
  (they are sums of non-negative token counts), and as `Int` where the
  source can produce a negative intermediate value.
* Floating-point score arithmetic is modelled exactly over `ℚ`.
* A JavaScript function that can throw is modelled with `Except`;
  `null`/`undefined` values are modelled with `Option`.
* JavaScript strings are Lean `String`s; the handful of string methods
  the sources use (`split`, `join`, `endsWith`, prefix tests, slices,
  trims) are modelled by the explicit character-list functions of the
  `Sentry.Strings` namespace so that every definition is executable.
* The chunker and the scoring engine are parametric in the token
  estimator (`estimateTokens` is a constructor argument of
  `UniversalChunker` in the source), so the embedding takes
  `tok : String → Nat` as an explicit argument.

The file is laid out with all definitions first and all theorems after
them.
-/

namespace Sentry

namespace Strings

/-- Model of JavaScript `text.split(sep)` for a one-character separator,
on the character list of a string.  `split` of the empty string is
`[""]`, exactly as in JavaScript. -/
def splitOnCharAux (sep : Char) : List Char → List (List Char)
  | [] => [[]]
  | c :: cs =>
    if c = sep then [] :: splitOnCharAux sep cs
    else
      match splitOnCharAux sep cs with
      | [] => [[c]]
      | h :: t => (c :: h) :: t

/-- Model of JavaScript `text.split(sep)` for a one-character separator. -/
def splitOnChar (sep : Char) (s : String) : List String :=
  (splitOnCharAux sep s.data).map String.mk

/-- Model of JavaScript `array.join(sep)` on character lists. -/
def joinSepChars (sep : Char) : List (List Char) → List Char
  | [] => []
  | [l] => l
  | l :: l2 :: ls => l ++ sep :: joinSepChars sep (l2 :: ls)

/-- Model of JavaScript `array.join(sep)` for a one-character separator. -/
def joinSep (sep : Char) (ls : List String) : String :=
  String.mk (joinSepChars sep (ls.map String.data))

/-- Splitting on newlines, as in `nodeText.split('\n')`. -/
def splitNl (s : String) : List String := splitOnChar (Char.ofNat 10) s

/-- Joining with newlines, as in `lines.join('\n')`. -/
def joinNl (ls : List String) : String := joinSep (Char.ofNat 10) ls

/-- Model of JavaScript `s.endsWith(suffix)`. -/
def endsWithStr (s suffix : String) : Bool :=
  suffix.data.isSuffixOf s.data

/-- Model of JavaScript `s.startsWith(prefixStr)`. -/
def startsWithStr (s p : String) : Bool :=
  p.data.isPrefixOf s.data

/-- Model of JavaScript `s.slice(a, b)` (character indices). -/
def sliceStr (s : String) (a b : Nat) : String :=
  String.mk ((s.data.take b).drop a)

/-- Model of JavaScript `s.substring(0, n)`. -/
def takeStr (s : String) (n : Nat) : String :=
  String.mk (s.data.take n)

/-- Model of JavaScript `s.trimEnd()`. -/
def trimEndStr (s : String) : String :=
  String.mk (s.data.reverse.dropWhile Char.isWhitespace).reverse

/-- Model of JavaScript `s.trimStart()`. -/
def trimStartStr (s : String) : String :=
  String.mk (s.data.dropWhile Char.isWhitespace)

/-- Concatenation of a list of strings without separator. -/
def concatAll (ls : List String) : String :=
  ls.foldl (fun a b => a ++ b) ""

end Strings

/-- Token usage counters returned by the AI client
(`TokenUsage` in `src/backend/src/ai_client.ts`). -/
structure Usage where
  prompt_tokens : Int
  completion_tokens : Int
  total_tokens : Int
  deriving DecidableEq

/-! ## Batching (ScoringEngine.generateScorecard, src/scorer.ts)

`generateScorecard` partitions the chunked files into batchable and
large files, sorts the batchable files by `finalTokenCount`
descending, and then repeatedly scans the remaining files, greedily
admitting every file that still fits in the running batch within
`MAX_BATCH_BUDGET`.  The embedding keeps only the two fields of
`FileChunkGroup` that this logic reads. -/

/-- The four send strategies of the chunker. -/
inductive SendStrategy
  | full_file
  | single_group
  | multiple_groups
  | unprocessed
  deriving DecidableEq

/-- Projection of a `FileChunkGroup` to the fields read by the batch
planner in `generateScorecard`. -/
structure BatchFile where
  filePath : String
  sendStrategy : SendStrategy
  finalTokenCount : Nat
  deriving DecidableEq

/-- `MAX_BATCH_BUDGET` from `src/config.ts`. -/
def MAX_BATCH_BUDGET : Nat := 5100

/-- The batchability test of `generateScorecard`: send strategy
`full_file` or `single_group` and `finalTokenCount < BATCH_BUDGET`. -/
def isBatchable (f : BatchFile) : Bool :=
  (f.sendStrategy == SendStrategy.full_file ||
    f.sendStrategy == SendStrategy.single_group) &&
  f.finalTokenCount < MAX_BATCH_BUDGET

/-- The partition loop of `generateScorecard`: batchable files in
order, then the large files in order. -/
def partitionFiles (files : List BatchFile) : List BatchFile × List BatchFile :=
  (files.filter isBatchable, files.filter (fun f => !(isBatchable f)))

/-- Stable insertion for the descending sort
`batchableFiles.sort((a, b) => b.finalTokenCount - a.finalTokenCount)`:
an element is inserted before the first strictly smaller entry, so
equal counts keep their original order, as with the stable array sort
of the source runtime. -/
def insertDesc (f : BatchFile) : List BatchFile → List BatchFile
  | [] => [f]
  | g :: rest =>
    if g.finalTokenCount < f.finalTokenCount then f :: g :: rest
    else g :: insertDesc f rest

/-- Descending sort by `finalTokenCount`. -/
def sortByTokensDesc (files : List BatchFile) : List BatchFile :=
  files.foldr insertDesc []

/-- One scan of the inner `for` loop of the bin packer: admit every
remaining file that fits the running token sum within
`MAX_BATCH_BUDGET`; return the filled batch and the files left for
later batches, in order. -/
def fillBatch : List BatchFile → Nat → List BatchFile × List BatchFile
  | [], _ => ([], [])
  | f :: rest, currentBatchTokens =>
    if currentBatchTokens + f.finalTokenCount ≤ MAX_BATCH_BUDGET then
      let r := fillBatch rest (currentBatchTokens + f.finalTokenCount)
      (f :: r.1, r.2)
    else
      let r := fillBatch rest currentBatchTokens
      (r.1, f :: r.2)

/-- The outer `while (remainingFiles.length > 0)` loop of the bin
packer.  The source loop terminates because every batchable file fits
an empty batch on its own; the embedding makes that termination
argument explicit through a fuel parameter, which the caller sets to
the length of the list (always sufficient: see
`packBatches_join_perm`). -/
def packBatches : Nat → List BatchFile → List (List BatchFile)
  | 0, _ => []
  | _, [] => []
  | Nat.succ fuel, remaining =>
    let r := fillBatch remaining 0
    r.1 :: packBatches fuel r.2

/-- The batch plan of `generateScorecard` for the batchable files. -/
def makeBatches (batchableFiles : List BatchFile) : List (List BatchFile) :=
  let sorted := sortByTokensDesc batchableFiles
  packBatches sorted.length sorted

/-- Summed `finalTokenCount` of a batch. -/
def batchTokenSum (batch : List BatchFile) : Nat :=
  (batch.map (fun f => f.finalTokenCount)).sum

/-- Concrete file with `finalTokenCount = 4000` (scenario D of the spec). -/
def exFileA : BatchFile :=
  { filePath := "a.ts", sendStrategy := SendStrategy.full_file, finalTokenCount := 4000 }

/-- Concrete file with `finalTokenCount = 1500` (scenario D of the spec). -/
def exFileB : BatchFile :=
  { filePath := "b.ts", sendStrategy := SendStrategy.single_group, finalTokenCount := 1500 }

/-- Concrete file with `finalTokenCount = 900` (scenario D of the spec). -/
def exFileC : BatchFile :=
  { filePath := "c.ts", sendStrategy := SendStrategy.full_file, finalTokenCount := 900 }

/-- The three files of scenario D, in an arbitrary incoming order. -/
def exampleBatchFiles : List BatchFile := [exFileB, exFileC, exFileA]

/-! ## Chunker (UniversalChunker, src/backend/src/chunker/chunker.ts)

The chunker is generic over a `LanguageStrategy`; tree-sitter parsing
lives entirely behind the strategy interface, so the embedding models
a strategy as functions from the source code to the node lists it
returns, and a syntax node by the fields the chunker actually reads
(`text`, `startPosition.row`, `endPosition.row`, `type`, `startIndex`,
`endIndex`, plus the sub-node list the strategy would yield for it). -/

namespace Chunker

open Strings

/-- `ChunkingConfig` (fields used by the chunker; values from
`CHUNKER_CONFIG` in `src/config.ts`). -/
structure ChunkingConfig where
  maxTokensPerChunk : Nat
  maxTokensPerGroup : Nat
  contextItemLimit : Nat
  maxContextTokens : Nat
  deriving DecidableEq

/-- Shell context attached to sub-chunks (`createShellContext`). -/
structure ShellContext where
  text : String
  tokens : Nat
  deriving DecidableEq

/-- `ChunkInfo` from `chunker.interface.ts`. -/
structure ChunkInfo where
  originalText : String
  codeOnlyTokens : Nat
  startLine : Nat
  endLine : Nat
  type : String
  shellContext : Option ShellContext := none
  isOversized : Bool := false
  skipReason : Option String := none
  deriving DecidableEq

/-- `ChunkGroup` from `chunker.interface.ts`. -/
structure ChunkGroup where
  combinedText : String
  totalTokens : Nat
  chunks : List ChunkInfo
  startLine : Nat
  endLine : Nat
  groupId : Nat
  deriving DecidableEq

/-- `SkippedContent` record built while marking skippable chunks. -/
structure SkippedContent where
  reason : String
  lines : String
  tokens : Nat
  type : String
  content : String
  deriving DecidableEq

/-- A sub-node of a top-level node, as returned by
`strategy.getSubNodes`. -/
structure SubNode where
  text : String
  startRow : Nat
  endRow : Nat
  type : String
  startIndex : Nat
  endIndex : Nat
  deriving DecidableEq

/-- A top-level node as returned by `strategy.getTopLevelNodes`,
together with the sub-nodes `strategy.getSubNodes` would return for
it. -/
structure TopNode where
  text : String
  startRow : Nat
  endRow : Nat
  type : String
  startIndex : Nat
  endIndex : Nat
  subNodes : List SubNode
  deriving DecidableEq

/-- A language strategy, reduced to the operations the chunker calls
(`parse` is composed into `getTopLevelNodes`; the default
`fallbackSplitter` of `BaseStrategy` is embedded separately below). -/
structure Strategy where
  getTopLevelNodes : String → List TopNode
  extractFileHeaderText : String → String
  shouldSkipChunk : ChunkInfo → Option String

/-- The fixed separator of `finalizeGroup`. -/
def separator : String := "\n\n// --- Next chunk ---\n\n"

/-- The per-chunk preamble of `finalizeGroup`. -/
def chunkPreamble (chunk : ChunkInfo) : String :=
  "// Lines " ++ toString chunk.startLine ++ "-" ++ toString chunk.endLine ++
    " (" ++ chunk.type ++ ")"

/-- One iteration of the combined-text loop of `finalizeGroup`.  The
accumulator carries the text so far and the `lastShellContext`
variable. -/
def appendChunkText (acc : String × Option String) (chunk : ChunkInfo) :
    String × Option String :=
  let st :=
    match chunk.shellContext with
    | some sc =>
      if acc.2 ≠ some sc.text then (acc.1 ++ "\n" ++ sc.text ++ "\n", some sc.text)
      else acc
    | none =>
      match acc.2 with
      | some _ => (acc.1 ++ "\n// --- End of sub-chunks ---\n", none)
      | none => acc
  (st.1 ++ separator ++ chunkPreamble chunk ++ "\n" ++ chunk.originalText, st.2)

/-- `finalizeGroup`: build the combined text (header once, shell
contexts when entering them, end marker when leaving them, separator
and preamble before every chunk) and re-tokenize it. -/
def finalizeGroup (tok : String → Nat) (contextHeader : String)
    (chunksInGroup : List ChunkInfo) (groupId : Nat) : ChunkGroup :=
  let combinedText := (chunksInGroup.foldl appendChunkText (contextHeader, none)).1
  { combinedText := combinedText
    totalTokens := tok combinedText
    chunks := chunksInGroup
    startLine := ((chunksInGroup.map (fun c => c.startLine)).min?).getD 0
    endLine := ((chunksInGroup.map (fun c => c.endLine)).max?).getD 0
    groupId := groupId }

/-- The loop of `groupChunks`, with the running counter compared
against `maxTokensPerGroup - contextTokens` (an `Int`, since the
subtraction can be negative in the source). -/
def groupChunksGo (tok : String → Nat) (contextHeader : String) (maxGroupTokens : Int) :
    List ChunkInfo → List ChunkInfo → Nat → Nat → List ChunkGroup
  | [], currentGroup, _, groupId =>
    if currentGroup.isEmpty then []
    else [finalizeGroup tok contextHeader currentGroup groupId]
  | chunk :: rest, currentGroup, currentTokens, groupId =>
    if ((currentTokens + chunk.codeOnlyTokens : Int) > maxGroupTokens) ∧
        ¬ currentGroup.isEmpty then
      finalizeGroup tok contextHeader currentGroup groupId ::
        groupChunksGo tok contextHeader maxGroupTokens rest [chunk]
          chunk.codeOnlyTokens (groupId + 1)
    else
      groupChunksGo tok contextHeader maxGroupTokens rest (currentGroup ++ [chunk])
        (currentTokens + chunk.codeOnlyTokens) groupId

/-- `groupChunks`: greedy grouping of the active chunks under the
code-token budget `maxTokensPerGroup - contextTokens`. -/
def groupChunks (tok : String → Nat) (cfg : ChunkingConfig)
    (activeChunks : List ChunkInfo) (contextHeader : String) : List ChunkGroup :=
  if activeChunks.isEmpty then []
  else
    groupChunksGo tok contextHeader
      ((cfg.maxTokensPerGroup : Int) - (tok contextHeader : Int))
      activeChunks [] 0 1

/-- Result of `determineStrategyAndGroup`. -/
structure StrategyAndGroups where
  sendStrategy : SendStrategy
  finalGroups : List ChunkGroup
  deriving DecidableEq

/-- `determineStrategyAndGroup`: choose `full_file` when the whole file
plus header fits one group and nothing is oversized (note that the
`full_file` group text is reassembled from the active chunks joined
with single newlines, not taken from the original source), otherwise
group the active chunks greedily. -/
def determineStrategyAndGroup (tok : String → Nat) (cfg : ChunkingConfig)
    (activeChunks oversizedChunks : List ChunkInfo) (totalFileTokens : Nat)
    (contextHeader : String) : StrategyAndGroups :=
  let fullFileCost := totalFileTokens + tok contextHeader
  if fullFileCost ≤ cfg.maxTokensPerGroup ∧ oversizedChunks.isEmpty then
    let code := joinNl (activeChunks.map (fun c => c.originalText))
    { sendStrategy := SendStrategy.full_file
      finalGroups := [
        { combinedText := contextHeader ++ code
          totalTokens := fullFileCost
          chunks := [
            { originalText := code
              codeOnlyTokens := totalFileTokens
              startLine := 1
              endLine := (splitNl code).length
              type := "full_file"
              isOversized := false } ]
          startLine := 1
          endLine := (splitNl code).length
          groupId := 1 } ] }
  else if activeChunks.isEmpty ∧ ¬ oversizedChunks.isEmpty then
    { sendStrategy := SendStrategy.unprocessed, finalGroups := [] }
  else
    let finalGroups := groupChunks tok cfg activeChunks contextHeader
    if finalGroups.isEmpty ∧ ¬ oversizedChunks.isEmpty then
      { sendStrategy := SendStrategy.unprocessed, finalGroups := finalGroups }
    else if finalGroups.length ≤ 1 then
      { sendStrategy := SendStrategy.single_group, finalGroups := finalGroups }
    else
      { sendStrategy := SendStrategy.multiple_groups, finalGroups := finalGroups }

/-- The `while` loop of `buildContextHeader`, popping lines from the
tail while the header exceeds `maxContextTokens` and more than the
three fixed lines remain.  Fuel is the line count (each pop removes a
line, so that is always enough). -/
def truncateHeader (tok : String → Nat) (cfg : ChunkingConfig) :
    Nat → List String → List String
  | 0, headerLines => headerLines
  | Nat.succ fuel, headerLines =>
    if tok (joinNl headerLines) > cfg.maxContextTokens ∧ headerLines.length > 3 then
      truncateHeader tok cfg fuel headerLines.dropLast
    else headerLines

/-- `buildContextHeader`: the file banner, a marker line and the
strategy header lines (capped by `contextItemLimit`), truncated to
`maxContextTokens`, with a trailing newline. -/
def buildContextHeader (tok : String → Nat) (cfg : ChunkingConfig)
    (filePath headerText : String) : String :=
  let lines := splitNl headerText
  let headerLines := ("// File: " ++ filePath) :: "// Relevant file context:" ::
    lines.take cfg.contextItemLimit
  joinNl (truncateHeader tok cfg headerLines.length headerLines) ++ "\n"

/-- `createShellContext`: trimmed opening and closing text of the
parent around its sub-nodes, with a placeholder marker. -/
def createShellContext (tok : String → Nat) (code : String) (parentNode : TopNode)
    (firstSub lastSub : SubNode) : ShellContext :=
  let openingShell := sliceStr code parentNode.startIndex firstSub.startIndex
  let closingShell := sliceStr code lastSub.endIndex parentNode.endIndex
  let shellText := trimEndStr openingShell ++ "\n  // ... [sub-chunks] ...\n" ++
    trimStartStr closingShell
  { text := "// The following chunks are parts of this parent:\n" ++ shellText
    tokens := tok shellText }

/-- The loop of `BaseStrategy.fallbackSplitter`: accumulate lines and
emit a part whenever the accumulated text reaches `maxTokens` or the
last line is consumed. -/
def fbGo (tok : String → Nat) (maxTokens : Nat) (nodeType : String) (nodeStartRow : Nat) :
    List String → List String → Nat → Nat → List ChunkInfo
  | [], _, _, _ => []
  | line :: rest, currentChunkLines, i, part =>
    let cur2 := currentChunkLines ++ [line]
    let currentChunkText := joinNl cur2
    if tok currentChunkText ≥ maxTokens ∨ rest = [] then
      { originalText := currentChunkText
        codeOnlyTokens := tok currentChunkText
        startLine := nodeStartRow + 1 + (i + 1 - cur2.length)
        endLine := nodeStartRow + 1 + i
        type := nodeType ++ "_part_" ++ toString part
        isOversized := false } ::
        fbGo tok maxTokens nodeType nodeStartRow rest [] (i + 1) (part + 1)
    else
      fbGo tok maxTokens nodeType nodeStartRow rest cur2 (i + 1) part

/-- `BaseStrategy.fallbackSplitter` (src/chunker/strategies, base
strategy): line-accumulating split of an indivisible node. -/
def fallbackSplitter (tok : String → Nat) (node : TopNode) (maxTokens : Nat) :
    List ChunkInfo :=
  fbGo tok maxTokens node.type node.startRow (splitNl node.text) [] 0 1

/-- `trySubChunk`: sub-chunk through the strategy sub-nodes with a
shared shell context, or fall back to the line splitter. -/
def trySubChunk (tok : String → Nat) (cfg : ChunkingConfig) (code : String)
    (node : TopNode) : List ChunkInfo :=
  match node.subNodes with
  | [] => fallbackSplitter tok node cfg.maxTokensPerChunk
  | s0 :: rest =>
    let lastSub := rest.getLastD s0
    let shellContext := createShellContext tok code node s0 lastSub
    (s0 :: rest).map (fun subNode =>
      { originalText := subNode.text
        codeOnlyTokens := tok subNode.text
        startLine := subNode.startRow + 1
        endLine := subNode.endRow + 1
        type := subNode.type
        shellContext := some shellContext
        isOversized := decide (tok subNode.text > cfg.maxTokensPerChunk) })

/-- Stable insertion before the first entry with a not-smaller start
line, modelling the stable `allChunks.sort((a, b) => a.startLine -
b.startLine)`. -/
def insertByStartLine (c : ChunkInfo) : List ChunkInfo → List ChunkInfo
  | [] => [c]
  | d :: rest =>
    if d.startLine < c.startLine then d :: insertByStartLine c rest
    else c :: d :: rest

/-- Ascending stable sort by `startLine`. -/
def sortByStartLine (chunks : List ChunkInfo) : List ChunkInfo :=
  chunks.foldr insertByStartLine []

/-- Step 5 of `chunkFileWithGrouping`: mark skippable chunks (oversized
chunks and synthetic shell nodes are exempt). -/
def markSkips (strat : Strategy) (chunks : List ChunkInfo) : List ChunkInfo :=
  chunks.map (fun c =>
    if c.isOversized || endsWithStr c.type "_shell" then c
    else
      match strat.shouldSkipChunk c with
      | some reason => { c with skipReason := some reason }
      | none => c)

/-- The `SkippedContent` records of the marked chunk list. -/
def skippedOf (chunks : List ChunkInfo) : List SkippedContent :=
  (chunks.filter (fun c => c.skipReason.isSome)).map (fun c =>
    { reason := c.skipReason.getD ""
      lines := toString c.startLine ++ "-" ++ toString c.endLine
      tokens := c.codeOnlyTokens
      type := c.type
      content := takeStr c.originalText 100 ++ "..." })

/-- `FileChunkGroup` (the `tokenBreakdown` record is reduced to its
`finalSent` component, which is what `finalTokenCount` is set to; the
other accounting fields are not used by any claim). -/
structure FileChunkGroup where
  filePath : String
  totalFileTokens : Nat
  chunks : List ChunkInfo
  groupedChunks : List ChunkGroup
  oversizedChunks : List ChunkInfo
  sendStrategy : SendStrategy
  finalTokenCount : Nat
  skippedContent : List SkippedContent
  contextHeader : String
  deriving DecidableEq

/-- `chunkFileWithGrouping`: the full chunker pipeline for one file. -/
def chunkFileWithGrouping (strat : Strategy) (tok : String → Nat)
    (cfg : ChunkingConfig) (code filePath : String) : FileChunkGroup :=
  let potentialHeaderText := strat.extractFileHeaderText code
  let contextHeader := buildContextHeader tok cfg filePath potentialHeaderText
  let topLevelNodes := strat.getTopLevelNodes code
  let initialChunks := (topLevelNodes.map (fun node =>
    if tok node.text > cfg.maxTokensPerChunk then trySubChunk tok cfg code node
    else [
      { originalText := node.text
        codeOnlyTokens := tok node.text
        startLine := node.startRow + 1
        endLine := node.endRow + 1
        type := node.type
        isOversized := false } ])).flatten
  let allChunks := markSkips strat (sortByStartLine initialChunks)
  let oversizedChunks := allChunks.filter (fun c => c.isOversized)
  let activeChunks := allChunks.filter (fun c => !c.isOversized && c.skipReason.isNone)
  let sg := determineStrategyAndGroup tok cfg activeChunks oversizedChunks
    (tok code) contextHeader
  { filePath := filePath
    totalFileTokens := tok code
    chunks := allChunks
    groupedChunks := sg.finalGroups
    oversizedChunks := oversizedChunks
    sendStrategy := sg.sendStrategy
    finalTokenCount := (sg.finalGroups.map (fun g => g.totalTokens)).sum
    skippedContent := skippedOf allChunks
    contextHeader := contextHeader }

/-- Summed `codeOnlyTokens` of a chunk list. -/
def codeTokenSum (chunks : List ChunkInfo) : Nat :=
  (chunks.map (fun c => c.codeOnlyTokens)).sum

/-- Character-count token estimator used to instantiate the parametric
chunker on concrete inputs. -/
def tokByLength (s : String) : Nat := s.data.length

/-- A placeholder chunk used as the default of `List.headD`. -/
def dummyChunk : ChunkInfo :=
  { originalText := "", codeOnlyTokens := 0, startLine := 0, endLine := 0, type := "" }

/-- A placeholder group used as the default of `List.headD`. -/
def dummyGroup : ChunkGroup :=
  { combinedText := "", totalTokens := 0, chunks := [], startLine := 0, endLine := 0,
    groupId := 0 }

/-- Concrete top-level node `aaaa` on line 1. -/
def exNodeA : TopNode :=
  { text := "aaaa", startRow := 0, endRow := 0, type := "fn", startIndex := 0,
    endIndex := 4, subNodes := [] }

/-- Concrete top-level node `bbbb` on line 2. -/
def exNodeB : TopNode :=
  { text := "bbbb", startRow := 1, endRow := 1, type := "fn", startIndex := 5,
    endIndex := 9, subNodes := [] }

/-- Concrete strategy seeing `exNodeA` and `exNodeB`, with no header
text and no skip heuristics. -/
def exStrategy6 : Strategy :=
  { getTopLevelNodes := fun _ => [exNodeA, exNodeB]
    extractFileHeaderText := fun _ => ""
    shouldSkipChunk := fun _ => none }

/-- The source file for the `exStrategy6` nodes. -/
def exCode6 : String := "aaaa\nbbbb"

/-- Configuration forcing `exCode6` onto the grouped path with a
per-group budget of 45 character tokens. -/
def exCfg6 : ChunkingConfig :=
  { maxTokensPerChunk := 100, maxTokensPerGroup := 45, contextItemLimit := 15,
    maxContextTokens := 1000 }

/-- Concrete top-level node `a` on line 1 of `exCode7`. -/
def exNode7A : TopNode :=
  { text := "a", startRow := 0, endRow := 0, type := "fn", startIndex := 0,
    endIndex := 1, subNodes := [] }

/-- Concrete top-level node `b` on line 3 of `exCode7`. -/
def exNode7B : TopNode :=
  { text := "b", startRow := 2, endRow := 2, type := "fn", startIndex := 3,
    endIndex := 4, subNodes := [] }

/-- Concrete strategy seeing `exNode7A` and `exNode7B`. -/
def exStrategy7 : Strategy :=
  { getTopLevelNodes := fun _ => [exNode7A, exNode7B]
    extractFileHeaderText := fun _ => ""
    shouldSkipChunk := fun _ => none }

/-- A file whose two single-character nodes are separated by a blank
line. -/
def exCode7 : String := "a\n\nb"

/-- Configuration letting `exCode7` take the `full_file` path. -/
def exCfg7 : ChunkingConfig :=
  { maxTokensPerChunk := 100, maxTokensPerGroup := 2500, contextItemLimit := 15,
    maxContextTokens := 200 }

/-- A two-line node for the fallback splitter. -/
def exNode8 : TopNode :=
  { text := "a\nb", startRow := 0, endRow := 1, type := "big", startIndex := 0,
    endIndex := 3, subNodes := [] }

/-- A small active chunk for concrete grouping runs. -/
def wChunkA : ChunkInfo :=
  { originalText := "aa", codeOnlyTokens := 2, startLine := 1, endLine := 1, type := "fn" }

/-- A second small active chunk for concrete grouping runs. -/
def wChunkB : ChunkInfo :=
  { originalText := "bb", codeOnlyTokens := 2, startLine := 2, endLine := 2, type := "fn" }

/-- The default chunker configuration of `src/config.ts`. -/
def wCfg : ChunkingConfig :=
  { maxTokensPerChunk := 800, maxTokensPerGroup := 2500, contextItemLimit := 15,
    maxContextTokens := 200 }

/-- A small context header for concrete grouping runs. -/
def wHeader : String := "// File: w\n"

/-- The first group produced by a concrete grouping run. -/
def wGroup : ChunkGroup :=
  (groupChunks tokByLength wCfg [wChunkA, wChunkB] wHeader).headD dummyGroup

end Chunker

/-! ## Scoring engine (src/scorer.ts) -/

namespace Scoring

/-- `AIScore` (numeric fields; qualitative fields other than
`group_summary` are not read by any claim). -/
structure AIScore where
  complexity_score : ℚ
  code_quality_score : ℚ
  maintainability_score : ℚ
  best_practices_adherence : ℚ
  group_summary : String := ""
  deriving DecidableEq

/-- `ScoredChunkGroup`; `usage` is `null` for a failed group, which is
what the `totalFileUsage` reduce of `scoreFile` later dereferences. -/
structure ScoredChunkGroup where
  groupId : Nat
  score : AIScore
  totalTokens : Nat
  usage : Option Usage
  deriving DecidableEq

/-- `ScoredFile` (its `chunkingDetails` back-pointer to the
`FileChunkGroup` carries no information beyond the inputs and is
omitted). -/
structure ScoredFile where
  filePath : String
  totalOriginalTokens : Nat
  finalTokenCount : Nat
  impactScore : ℚ
  averageComplexity : ℚ
  averageQuality : ℚ
  usage : Usage
  retries : Nat
  hadError : Bool
  scoredChunkGroups : List ScoredChunkGroup
  deriving DecidableEq

/-- Projection of a chunk group to the fields `scoreFile` reads. -/
structure GroupForScoring where
  groupId : Nat
  totalTokens : Nat
  deriving DecidableEq

/-- Projection of a `FileChunkGroup` to the fields `scoreFile` reads. -/
structure FileForScoring where
  filePath : String
  totalFileTokens : Nat
  finalTokenCount : Nat
  groupedChunks : List GroupForScoring
  deriving DecidableEq

/-- The runtime exceptions the scoring paths can raise. -/
inductive JsError
  | typeErrorNullUsage
  | typeErrorDestructureNull
  | finalReviewFailed
  deriving DecidableEq

/-- The zeroed score recorded for a group whose scoring call failed. -/
def failedGroupScore : AIScore :=
  { complexity_score := 0, code_quality_score := 0, maintainability_score := 0,
    best_practices_adherence := 0,
    group_summary := "[Skipped due to parsing failure]" }

/-- One iteration of the group loop of `scoreFile`: the helper result
is either `{obj, usage}` or `null` (`safeJsonChatCompletion` returns
`null` after exhausting its retries). -/
def mkGroupResult (g : GroupForScoring) (outcome : Option (AIScore × Usage)) :
    ScoredChunkGroup :=
  match outcome with
  | some r =>
    { groupId := g.groupId, score := r.1, totalTokens := g.totalTokens,
      usage := some r.2 }
  | none =>
    { groupId := g.groupId, score := failedGroupScore, totalTokens := g.totalTokens,
      usage := none }

/-- Componentwise sum of usage counters. -/
def addUsage (a b : Usage) : Usage :=
  { prompt_tokens := a.prompt_tokens + b.prompt_tokens
    completion_tokens := a.completion_tokens + b.completion_tokens
    total_tokens := a.total_tokens + b.total_tokens }

/-- The `totalFileUsage` reduce of `scoreFile`.  The source accesses
`g.usage.prompt_tokens` without a null check, so a failed group (whose
`usage` is `null`) raises a TypeError; the embedding returns `none` in
that case. -/
def sumUsages (groups : List ScoredChunkGroup) : Option Usage :=
  groups.foldlM (fun acc g => g.usage.map (fun u => addUsage acc u))
    { prompt_tokens := 0, completion_tokens := 0, total_tokens := 0 }

/-- Groups with `complexity_score > 0`, the ones `scoreFile` averages
over. -/
def positiveComplexityGroups (groups : List ScoredChunkGroup) : List ScoredChunkGroup :=
  groups.filter (fun g => decide (0 < g.score.complexity_score))

/-- `ScoringEngine.scoreFile`, given the per-group helper outcomes
(one entry per chunk group, in order). -/
def scoreFileRun (fileGroup : FileForScoring)
    (outcomes : List (Option (AIScore × Usage))) : Except JsError ScoredFile :=
  let scoredChunkGroups :=
    (fileGroup.groupedChunks.zip outcomes).map (fun p => mkGroupResult p.1 p.2)
  let pos := positiveComplexityGroups scoredChunkGroups
  let qualitySum := (pos.map (fun g =>
    g.score.code_quality_score + g.score.maintainability_score +
      g.score.best_practices_adherence)).sum
  let complexitySum := (pos.map (fun g => g.score.complexity_score)).sum
  let n : ℚ := (scoredChunkGroups.length : ℚ)
  let averageQuality := qualitySum / (n * 3)
  let averageComplexity := complexitySum / n
  let impactScore := averageQuality * averageComplexity
  match sumUsages scoredChunkGroups with
  | none => Except.error JsError.typeErrorNullUsage
  | some totalFileUsage =>
    Except.ok
      { filePath := fileGroup.filePath
        totalOriginalTokens := fileGroup.totalFileTokens
        finalTokenCount := fileGroup.finalTokenCount
        impactScore := impactScore
        averageComplexity :=
          (scoredChunkGroups.map (fun g => g.score.complexity_score)).sum / n
        averageQuality :=
          (scoredChunkGroups.map (fun g => g.score.code_quality_score)).sum / n
        usage := totalFileUsage
        retries := 0
        hadError := false
        scoredChunkGroups := scoredChunkGroups }

/-- The `ScoredFile` synthesized by `attemptBatchScoring` for a file
matched by a returned review. -/
def batchScoredFile (fileGroup : FileForScoring) (review : AIScore)
    (proportionalUsage : Usage) (isRetry : Bool) : ScoredFile :=
  let scoredGroup : ScoredChunkGroup :=
    { groupId := 1, score := review, totalTokens := fileGroup.finalTokenCount,
      usage := some proportionalUsage }
  let averageQuality := (review.code_quality_score + review.maintainability_score +
    review.best_practices_adherence) / 3
  let averageComplexity := review.complexity_score
  { filePath := fileGroup.filePath
    totalOriginalTokens := fileGroup.totalFileTokens
    finalTokenCount := fileGroup.finalTokenCount
    impactScore := averageQuality * averageComplexity
    averageComplexity := averageComplexity
    averageQuality := averageQuality
    usage := proportionalUsage
    retries := if isRetry then 1 else 0
    hadError := false
    scoredChunkGroups := [scoredGroup] }

/-- The parsed final-review JSON; only `final_score_multiplier`
matters to the claims, and it can be absent. -/
structure ReviewJson where
  final_score_multiplier : Option ℚ
  deriving DecidableEq

/-- The part of the `performFinalReview` result the run consumes. -/
structure FinalReviewResult where
  multiplier : ℚ
  deriving DecidableEq

/-- The tail of `ScoringEngine.performFinalReview` after the dossier
is built: destructure the helper result (destructuring `null` throws a
TypeError), throw when the parsed object is `null`, and otherwise
default a falsy `final_score_multiplier` to `1.0`
(`review.final_score_multiplier || 1.0`). -/
def performFinalReviewCall (helperResult : Option (Option ReviewJson × Usage)) :
    Except JsError FinalReviewResult :=
  match helperResult with
  | none => Except.error JsError.typeErrorDestructureNull
  | some (none, _) => Except.error JsError.finalReviewFailed
  | some (some review, _) =>
    Except.ok
      { multiplier :=
          match review.final_score_multiplier with
          | some m => if m = 0 then (1 : ℚ) else m
          | none => 1 }

/-- `runFinalReview` (src/main.ts): multiply the preliminary score by
the final-review multiplier. -/
def runFinalReviewScore (preliminaryScore : ℚ)
    (helperResult : Option (Option ReviewJson × Usage)) : Except JsError ℚ :=
  (performFinalReviewCall helperResult).map
    (fun finalReview => preliminaryScore * finalReview.multiplier)

/-- The per-file group-token-weighted average of one score axis, as
computed inline in the aggregation loop of `generateScorecard`. -/
def groupTokenWeightedAvg (axis : AIScore → ℚ) (file : ScoredFile) : ℚ :=
  let fileTotalGroupTokens : ℚ :=
    ((file.scoredChunkGroups.map (fun g => (g.totalTokens : ℚ))).sum)
  if 0 < fileTotalGroupTokens then
    ((file.scoredChunkGroups.map
      (fun g => axis g.score * (g.totalTokens : ℚ))).sum) / fileTotalGroupTokens
  else 0

/-- Accumulators of the aggregation loop of `generateScorecard`. -/
structure AggAcc where
  totalTokenWeight : ℚ
  weightedComplexity : ℚ
  weightedQuality : ℚ
  weightedMaintainability : ℚ
  weightedBestPractices : ℚ
  deriving DecidableEq

/-- One iteration of the aggregation loop. -/
def aggStep (acc : AggAcc) (file : ScoredFile) : AggAcc :=
  let tokenWeight : ℚ := (file.totalOriginalTokens : ℚ)
  { totalTokenWeight := acc.totalTokenWeight + tokenWeight
    weightedComplexity := acc.weightedComplexity +
      groupTokenWeightedAvg (fun s => s.complexity_score) file * tokenWeight
    weightedQuality := acc.weightedQuality +
      groupTokenWeightedAvg (fun s => s.code_quality_score) file * tokenWeight
    weightedMaintainability := acc.weightedMaintainability +
      groupTokenWeightedAvg (fun s => s.maintainability_score) file * tokenWeight
    weightedBestPractices := acc.weightedBestPractices +
      groupTokenWeightedAvg (fun s => s.best_practices_adherence) file * tokenWeight }

/-- The aggregation loop over the scored files. -/
def aggregate (scoredFiles : List ScoredFile) : AggAcc :=
  scoredFiles.foldl aggStep
    { totalTokenWeight := 0, weightedComplexity := 0, weightedQuality := 0,
      weightedMaintainability := 0, weightedBestPractices := 0 }

/-- The four axes of the project profile. -/
structure ProjectProfile where
  complexity : ℚ
  quality : ℚ
  maintainability : ℚ
  best_practices : ℚ
  deriving DecidableEq

/-- The `finalProfile` of `generateScorecard` (each axis guarded by
`totalTokenWeight > 0`). -/
def finalProfile (scoredFiles : List ScoredFile) : ProjectProfile :=
  let acc := aggregate scoredFiles
  { complexity :=
      if 0 < acc.totalTokenWeight then acc.weightedComplexity / acc.totalTokenWeight else 0
    quality :=
      if 0 < acc.totalTokenWeight then acc.weightedQuality / acc.totalTokenWeight else 0
    maintainability :=
      if 0 < acc.totalTokenWeight then
        acc.weightedMaintainability / acc.totalTokenWeight else 0
    best_practices :=
      if 0 < acc.totalTokenWeight then
        acc.weightedBestPractices / acc.totalTokenWeight else 0 }

/-- The preliminary project score: `0.40·c + 0.25·q + 0.15·m + 0.20·b`
over the profile (the decimal weights of the source are exact in ℚ). -/
def preliminaryProjectScore (scoredFiles : List ScoredFile) : ℚ :=
  let profile := finalProfile scoredFiles
  profile.complexity * (40 / 100) + profile.quality * (25 / 100) +
    profile.maintainability * (15 / 100) + profile.best_practices * (20 / 100)

/-- Specification-side weighted mean of `value` with weights `weight`. -/
def weightedMeanBy {α : Type} (weight value : α → ℚ) (l : List α) : ℚ :=
  (l.map (fun a => value a * weight a)).sum / (l.map weight).sum

/-- Concrete score with distinct axis values. -/
def exScore3 : AIScore :=
  { complexity_score := 5, code_quality_score := 8, maintainability_score := 6,
    best_practices_adherence := 4, group_summary := "summary" }

/-- Concrete usage counters. -/
def exUsage : Usage :=
  { prompt_tokens := 100, completion_tokens := 50, total_tokens := 150 }

/-- Concrete single-group file for `scoreFile`. -/
def exFileForScoring : FileForScoring :=
  { filePath := "src/x.ts", totalFileTokens := 400, finalTokenCount := 450,
    groupedChunks := [ { groupId := 1, totalTokens := 450 } ] }

/-- Concrete score whose quality, maintainability and best-practices
values coincide. -/
def exScoreEq : AIScore :=
  { complexity_score := 5, code_quality_score := 6, maintainability_score := 6,
    best_practices_adherence := 6, group_summary := "summary" }

/-- An all-zero scored file used as the default of `okOrDefault`. -/
def dummyScoredFile : ScoredFile :=
  { filePath := "", totalOriginalTokens := 0, finalTokenCount := 0, impactScore := 0,
    averageComplexity := 0, averageQuality := 0,
    usage := { prompt_tokens := 0, completion_tokens := 0, total_tokens := 0 },
    retries := 0, hadError := false, scoredChunkGroups := [] }

/-- Projection of a scoring result to its payload. -/
def okOrDefault (r : Except JsError ScoredFile) : ScoredFile :=
  match r with
  | Except.ok sf => sf
  | Except.error _ => dummyScoredFile

/-- The scored file of a concrete all-successful `scoreFile` run whose
group scores have equal quality axes. -/
def wScoredEq : ScoredFile :=
  okOrDefault (scoreFileRun exFileForScoring [some (exScoreEq, exUsage)])

/-- A concrete scored chunk group for aggregation runs. -/
def wAggGroup : ScoredChunkGroup :=
  { groupId := 1, score := exScore3, totalTokens := 200, usage := some exUsage }

/-- A concrete scored file with one group, for aggregation runs. -/
def wAggFile : ScoredFile :=
  { filePath := "w.ts", totalOriginalTokens := 100, finalTokenCount := 220,
    impactScore := 30, averageComplexity := 5, averageQuality := 8, usage := exUsage,
    retries := 0, hadError := false, scoredChunkGroups := [wAggGroup] }

end Scoring

/-! ## HTTP facade (src/backend/src/server.ts) -/

namespace Server

/-- The repository cache root.  The source configures the relative
path `repo_cache` and Node `path.resolve` makes it absolute against
the process working directory; the embedding fixes the resulting
absolute root. -/
def LOCAL_REPO_DIR : String := "/srv/repo_cache"

/-- Projection of `RunState` to the field the file-content handler
reads. -/
structure RunStateFC where
  repoName : String
  deriving DecidableEq

/-- An HTTP response: status code and body (`text/plain` content for
200, the JSON error text otherwise). -/
structure HttpResponse where
  status : Nat
  body : String
  deriving DecidableEq

/-- Lexical processing of path segments (`..` pops, `.` and empty
segments vanish), as performed by Node `path.resolve`. -/
def resolveSegs : List String → List String → List String
  | acc, [] => acc
  | acc, seg :: rest =>
    if seg = ".." then resolveSegs acc.dropLast rest
    else if seg = "." ∨ seg = "" then resolveSegs acc rest
    else resolveSegs (acc ++ [seg]) rest

/-- Model of Node `path.resolve(root, rel)` for an absolute `root` and
a relative `rel`: lexical normalization of `root ++ "/" ++ rel`. -/
def resolvePath (root rel : String) : String :=
  "/" ++ Strings.joinSep (Char.ofNat 47)
    (resolveSegs [] (Strings.splitOnChar (Char.ofNat 47) (root ++ "/" ++ rel)))

/-- The `GET /analysis/:runId/file-content` handler.  The directory
traversal check of the source (server.ts lines 295-297) is commented
out there, and the embedding mirrors the live code: resolve the path
and serve the file when it exists.  `store` models `analysisStore` and
`fileSystem` models the file system (path to contents). -/
def fileContentHandler (store : String → Option RunStateFC)
    (fileSystem : String → Option String) (runId : String)
    (filePath : Option String) : HttpResponse :=
  match filePath with
  | none => { status := 400, body := "Query parameter filePath is required." }
  | some fp =>
    if fp = "" then { status := 400, body := "Query parameter filePath is required." }
    else
      match store runId with
      | none => { status := 404, body := "Analysis run not found." }
      | some state =>
        let repoCachePath := LOCAL_REPO_DIR ++ "/" ++ state.repoName
        let absoluteFilePath := resolvePath repoCachePath fp
        match fileSystem absoluteFilePath with
        | some content => { status := 200, body := content }
        | none => { status := 404, body := "File not found in repository." }

/-- A `{relative, absolute}` entry of the walked file tree. -/
structure RepoFileEntry where
  relative : String
  absolute : String
  deriving DecidableEq

/-- Projection of the repository metadata to the field the score-file
handler reads. -/
structure RepoMetadata where
  allFiles : List RepoFileEntry
  deriving DecidableEq

/-- Projection of `RunState` to the fields the score-file handler
reads: `scoredFiles` is `state.finalScorecard?.scoredFiles` (absent
when the scorecard is not yet set). -/
structure RunStateSF where
  repoName : String
  scoredFiles : Option (List Scoring.ScoredFile)
  deriving DecidableEq

/-- Outcome of the `POST /analysis/:runId/score-file` handler.
`okExisting` is the 200 short-circuit returning an already scored
file; `scoresNew` is the branch that calls `scoreSingleFile`, appends
the result and re-sorts (the only branch doing new scoring work). -/
inductive ScoreFileResult
  | notFoundRun
  | badRequest
  | notFoundMetadata
  | notFoundFile
  | okExisting (existing : Scoring.ScoredFile)
  | scoresNew (fileToScore : RepoFileEntry)
  deriving DecidableEq

/-- The `POST /analysis/:runId/score-file` handler.  The source tests
`scoredFiles.some(sf => sf.filePath.endsWith(filePath))` and then
re-runs the same predicate with `find`; the embedding uses the single
equivalent `find?`. -/
def scoreFileHandler (state : Option RunStateSF) (metadata : Option RepoMetadata)
    (filePath : Option String) : ScoreFileResult :=
  match state with
  | none => ScoreFileResult.notFoundRun
  | some st =>
    match filePath with
    | none => ScoreFileResult.badRequest
    | some fp =>
      if fp = "" then ScoreFileResult.badRequest
      else
        match metadata with
        | none => ScoreFileResult.notFoundMetadata
        | some md =>
          match md.allFiles.find? (fun f => f.relative == fp) with
          | none => ScoreFileResult.notFoundFile
          | some fileToScore =>
            match st.scoredFiles with
            | some scoredFiles =>
              match scoredFiles.find?
                  (fun sf => Strings.endsWithStr sf.filePath fp) with
              | some existing => ScoreFileResult.okExisting existing
              | none => ScoreFileResult.scoresNew fileToScore
            | none => ScoreFileResult.scoresNew fileToScore

/-- A run store holding one run for repository `myrepo`. -/
def exRunStore : String → Option RunStateFC :=
  fun runId => if runId = "run1" then some { repoName := "myrepo" } else none

/-- A file system holding `/etc/passwd` outside the repository cache. -/
def exFileSystem : String → Option String :=
  fun p => if p = "/etc/passwd" then some "root:x:0:0:root:/root:/bin/bash" else none

/-- A scored file whose path has `util.ts` as a proper suffix. -/
def exScoredUtil : Scoring.ScoredFile :=
  { filePath := "src/a/util.ts", totalOriginalTokens := 100, finalTokenCount := 120,
    impactScore := 20, averageComplexity := 4, averageQuality := 5,
    usage := { prompt_tokens := 10, completion_tokens := 5, total_tokens := 15 },
    retries := 0, hadError := false, scoredChunkGroups := [] }

/-- A run whose final scorecard contains only `exScoredUtil`. -/
def exRunStateSF : RunStateSF :=
  { repoName := "myrepo", scoredFiles := some [exScoredUtil] }

/-- Repository metadata in which `src/a/util.ts` is the only file (in
particular the bare name `util.ts` is not a repository file). -/
def exMetadata : RepoMetadata :=
  { allFiles := [
      { relative := "src/a/util.ts",
        absolute := "/srv/repo_cache/myrepo/src/a/util.ts" } ] }

end Server

end Sentry

/-! ## Theorems -/

namespace Sentry

namespace Strings

theorem string_data_eq {s t : String} (h : s.data = t.data) : s = t := by
  cases s; cases t; exact congrArg String.mk h

theorem string_mk_data (s : String) : String.mk s.data = s := by
  cases s; rfl

theorem splitOnCharAux_ne_nil (sep : Char) : ∀ cs, splitOnCharAux sep cs ≠ []
  | [] => by simp [splitOnCharAux]
  | c :: cs => by
    simp only [splitOnCharAux]
    split
    · simp
    · cases h : splitOnCharAux sep cs <;> simp

theorem joinSepChars_cons (sep : Char) (l : List Char) (ls : List (List Char))
    (h : ls ≠ []) :
    joinSepChars sep (l :: ls) = l ++ sep :: joinSepChars sep ls := by
  cases ls with
  | nil => exact absurd rfl h
  | cons x xs => rfl

theorem joinSepChars_splitOnCharAux (sep : Char) (cs : List Char) :
    joinSepChars sep (splitOnCharAux sep cs) = cs := by
  induction cs with
  | nil => simp [splitOnCharAux, joinSepChars]
  | cons c cs ih =>
    have hne := splitOnCharAux_ne_nil sep cs
    simp only [splitOnCharAux]
    split
    · rename_i hc
      rw [joinSepChars_cons sep [] (splitOnCharAux sep cs) hne, ih, hc]
      simp
    · cases h : splitOnCharAux sep cs with
      | nil => exact absurd h hne
      | cons h' t' =>
        rw [h] at ih
        cases t' with
        | nil => simpa [joinSepChars] using congrArg (c :: ·) ih
        | cons x xs => simpa [joinSepChars] using congrArg (c :: ·) ih

/-- Rejoining the split of a string gives the string back:
`lines.join('\n')` is a left inverse of `text.split('\n')`. -/
theorem joinSep_splitOnChar (sep : Char) (s : String) :
    joinSep sep (splitOnChar sep s) = s := by
  apply string_data_eq
  simp only [joinSep, splitOnChar, List.map_map]
  have : (String.data ∘ String.mk) = id := by
    funext l; rfl
  rw [this, List.map_id]
  exact joinSepChars_splitOnCharAux sep s.data

theorem joinSepChars_append (sep : Char) (xs ys : List (List Char))
    (hx : xs ≠ []) (hy : ys ≠ []) :
    joinSepChars sep (xs ++ ys) =
      joinSepChars sep xs ++ sep :: joinSepChars sep ys := by
  induction xs with
  | nil => exact absurd rfl hx
  | cons a as ih =>
    cases as with
    | nil =>
      rw [List.singleton_append, joinSepChars_cons sep a ys hy]
      rfl
    | cons a2 as2 =>
      have ih2 := ih (by simp)
      have h1 : (a :: a2 :: as2) ++ ys = a :: ((a2 :: as2) ++ ys) := by simp
      rw [h1, joinSepChars_cons sep a ((a2 :: as2) ++ ys) (by simp),
          joinSepChars_cons sep a (a2 :: as2) (by simp), ih2]
      simp

/-- Joining two non-empty line lists concatenates their joins with a
separator character between them. -/
theorem joinSep_append (sep : Char) (xs ys : List String)
    (hx : xs ≠ []) (hy : ys ≠ []) :
    joinSep sep (xs ++ ys) = joinSep sep xs ++ String.mk [sep] ++ joinSep sep ys := by
  apply string_data_eq
  have hx' : xs.map String.data ≠ [] := by simpa using hx
  have hy' : ys.map String.data ≠ [] := by simpa using hy
  simp only [joinSep, String.data_append]
  simpa [List.map_append] using
    joinSepChars_append sep (xs.map String.data) (ys.map String.data) hx' hy'

theorem joinSep_singleton (sep : Char) (s : String) : joinSep sep [s] = s := by
  apply string_data_eq
  simp [joinSep, joinSepChars]

theorem splitOnChar_ne_nil (sep : Char) (s : String) : splitOnChar sep s ≠ [] := by
  simp only [splitOnChar]
  intro h
  exact splitOnCharAux_ne_nil sep s.data (List.map_eq_nil_iff.mp h)

theorem joinNl_splitNl (s : String) : joinNl (splitNl s) = s :=
  joinSep_splitOnChar (Char.ofNat 10) s

theorem splitNl_ne_nil (s : String) : splitNl s ≠ [] :=
  splitOnChar_ne_nil (Char.ofNat 10) s

theorem joinNl_append (xs ys : List String) (hx : xs ≠ []) (hy : ys ≠ []) :
    joinNl (xs ++ ys) = joinNl xs ++ String.mk [Char.ofNat 10] ++ joinNl ys :=
  joinSep_append (Char.ofNat 10) xs ys hx hy

theorem joinNl_singleton (s : String) : joinNl [s] = s :=
  joinSep_singleton (Char.ofNat 10) s

end Strings

theorem fillBatch_sum (l : List BatchFile) (cur : Nat)
    (h : cur ≤ MAX_BATCH_BUDGET) :
    cur + batchTokenSum (fillBatch l cur).1 ≤ MAX_BATCH_BUDGET := by
  induction l generalizing cur with
  | nil => simpa [fillBatch, batchTokenSum]
  | cons f rest ih =>
    simp only [fillBatch]
    split
    · rename_i hfit
      have := ih (cur + f.finalTokenCount) hfit
      simp only [batchTokenSum, List.map_cons, List.sum_cons] at *
      omega
    · exact ih cur h

theorem fillBatch_perm (l : List BatchFile) (cur : Nat) :
    ((fillBatch l cur).1 ++ (fillBatch l cur).2).Perm l := by
  induction l generalizing cur with
  | nil => simp [fillBatch]
  | cons f rest ih =>
    simp only [fillBatch]
    split
    · simpa using (ih (cur + f.finalTokenCount)).cons f
    · exact (List.perm_middle.trans ((ih cur).cons f))

theorem fillBatch_left_lt (l : List BatchFile)
    (hl : l ≠ []) (hfit : ∀ f ∈ l, f.finalTokenCount ≤ MAX_BATCH_BUDGET) :
    (fillBatch l 0).2.length < l.length := by
  cases l with
  | nil => exact absurd rfl hl
  | cons f rest =>
    have hperm := (fillBatch_perm rest (0 + f.finalTokenCount)).length_eq
    have hf : 0 + f.finalTokenCount ≤ MAX_BATCH_BUDGET := by
      simpa using hfit f (by simp)
    simp only [fillBatch, if_pos hf]
    simp only [List.length_append] at hperm
    simp only [List.length_cons]
    omega

theorem packBatches_sum (fuel : Nat) (l : List BatchFile) :
    ∀ b ∈ packBatches fuel l, batchTokenSum b ≤ MAX_BATCH_BUDGET := by
  induction fuel generalizing l with
  | zero => simp [packBatches]
  | succ fuel ih =>
    cases l with
    | nil => simp [packBatches]
    | cons f rest =>
      intro b hb
      simp only [packBatches, List.mem_cons] at hb
      rcases hb with hb | hb
      · subst hb
        simpa using fillBatch_sum (f :: rest) 0 (by simp [MAX_BATCH_BUDGET])
      · exact ih _ b hb

theorem packBatches_join_perm (fuel : Nat) (l : List BatchFile)
    (hfuel : l.length ≤ fuel)
    (hfit : ∀ f ∈ l, f.finalTokenCount ≤ MAX_BATCH_BUDGET) :
    (packBatches fuel l).flatten.Perm l := by
  induction fuel generalizing l with
  | zero =>
    have : l = [] := List.length_eq_zero.mp (Nat.le_zero.mp hfuel)
    subst this
    simp [packBatches]
  | succ fuel ih =>
    cases l with
    | nil => simp [packBatches]
    | cons f rest =>
      have hlt := fillBatch_left_lt (f :: rest) (by simp) hfit
      have hperm := fillBatch_perm (f :: rest) 0
      have hsub : ∀ g ∈ (fillBatch (f :: rest) 0).2,
          g.finalTokenCount ≤ MAX_BATCH_BUDGET := by
        intro g hg
        exact hfit g (hperm.mem_iff.mp (List.mem_append_right _ hg))
      have ihrec := ih (fillBatch (f :: rest) 0).2 (by omega) hsub
      have h1 : (packBatches (fuel + 1) (f :: rest)).flatten =
          (fillBatch (f :: rest) 0).1 ++
            (packBatches fuel (fillBatch (f :: rest) 0).2).flatten := by
        simp [packBatches]
      rw [h1]
      exact (List.Perm.append_left _ ihrec).trans hperm

theorem sortByTokensDesc_perm (files : List BatchFile) :
    (sortByTokensDesc files).Perm files := by
  induction files with
  | nil => simp [sortByTokensDesc]
  | cons f rest ih =>
    have hins : ∀ (g : BatchFile) (l : List BatchFile),
        (insertDesc g l).Perm (g :: l) := by
      intro g l
      induction l with
      | nil => simp [insertDesc]
      | cons x xs ihx =>
        simp only [insertDesc]
        split
        · exact List.Perm.refl _
        · exact (ihx.cons x).trans (List.Perm.swap g x xs)
    simp only [sortByTokensDesc, List.foldr_cons]
    exact (hins f _).trans ((ih.cons f))

theorem batchable_le_budget (files : List BatchFile) :
    ∀ f ∈ (partitionFiles files).1, f.finalTokenCount ≤ MAX_BATCH_BUDGET := by
  intro f hf
  simp only [partitionFiles, List.mem_filter, isBatchable, Bool.and_eq_true,
    decide_eq_true_eq] at hf
  exact Nat.le_of_lt hf.2.2

/-- C5: every batch emitted by the bin packer keeps its summed
`finalTokenCount` within `MAX_BATCH_BUDGET`; every batchable file is
placed in exactly one batch and no file is both batched and scored
individually (the flattened batches together with the individually
scored large files are a permutation of the input); a file goes to the
individual path exactly when it is not batchable; and the
`{4000, 1500, 900}` example packs into `[[4000, 900], [1500]]`. -/
theorem binPacking_budget_partition_example :
    (∀ files : List BatchFile,
      (∀ b ∈ makeBatches (partitionFiles files).1, batchTokenSum b ≤ MAX_BATCH_BUDGET) ∧
      ((makeBatches (partitionFiles files).1).flatten ++ (partitionFiles files).2).Perm files ∧
      (∀ f ∈ (partitionFiles files).2, isBatchable f = false)) ∧
    (makeBatches (partitionFiles exampleBatchFiles).1).map
        (List.map BatchFile.finalTokenCount) = [[4000, 900], [1500]] := by
  constructor
  · intro files
    refine ⟨?_, ?_, ?_⟩
    · intro b hb
      exact packBatches_sum _ _ b hb
    · have hfit : ∀ f ∈ sortByTokensDesc (partitionFiles files).1,
          f.finalTokenCount ≤ MAX_BATCH_BUDGET := by
        intro f hf
        exact batchable_le_budget files f ((sortByTokensDesc_perm _).mem_iff.mp hf)
      have h1 := packBatches_join_perm (sortByTokensDesc (partitionFiles files).1).length
        (sortByTokensDesc (partitionFiles files).1) (le_refl _) hfit
      have h2 := sortByTokensDesc_perm (partitionFiles files).1
      have hflat : (makeBatches (partitionFiles files).1).flatten.Perm
          (partitionFiles files).1 := h1.trans h2
      have hpart : ((partitionFiles files).1 ++ (partitionFiles files).2).Perm files := by
        simpa [partitionFiles] using List.filter_append_perm isBatchable files
      exact (hflat.append_right _).trans hpart
    · intro f hf
      simp only [partitionFiles, List.mem_filter] at hf
      simpa using hf.2
  · decide

/-- Witness for `binPacking_budget_partition_example`: the first batch
of the concrete example satisfies the budget bound. -/
theorem binPacking_budget_partition_example_witness :
    batchTokenSum [exFileA, exFileC] ≤ MAX_BATCH_BUDGET :=
  (binPacking_budget_partition_example.1 exampleBatchFiles).1 [exFileA, exFileC] (by decide)

end Sentry

namespace Sentry

namespace Chunker

theorem codeTokenSum_append (a b : List ChunkInfo) :
    codeTokenSum (a ++ b) = codeTokenSum a + codeTokenSum b := by
  simp [codeTokenSum]

theorem codeTokenSum_singleton (c : ChunkInfo) :
    codeTokenSum [c] = c.codeOnlyTokens := by
  simp [codeTokenSum]

theorem finalizeGroup_chunks (tok : String → Nat) (hdr : String)
    (chunks : List ChunkInfo) (gid : Nat) :
    (finalizeGroup tok hdr chunks gid).chunks = chunks := rfl

/-- Invariant of the grouping loop: provided every incoming chunk fits
the code budget `M` and the current group already fits it, every
emitted group is non-empty and its summed code tokens stay within
`M`. -/
theorem groupChunksGo_bound (tok : String → Nat) (hdr : String) (M : Int)
    (rest : List ChunkInfo) :
    ∀ (cur : List ChunkInfo) (curT gid : Nat),
      curT = codeTokenSum cur →
      (∀ c ∈ rest, (c.codeOnlyTokens : Int) ≤ M) →
      ((codeTokenSum cur : Int) ≤ M) →
      ∀ g ∈ groupChunksGo tok hdr M rest cur curT gid,
        g.chunks ≠ [] ∧ (codeTokenSum g.chunks : Int) ≤ M := by
  induction rest with
  | nil =>
    intro cur curT gid hT hrest hcur g hg
    simp only [groupChunksGo] at hg
    split at hg
    · simp at hg
    · rename_i hne
      simp only [List.mem_singleton] at hg
      subst hg
      rw [finalizeGroup_chunks]
      exact ⟨by simpa [List.isEmpty_iff] using hne, hcur⟩
  | cons c rest ih =>
    intro cur curT gid hT hrest hcur g hg
    simp only [groupChunksGo] at hg
    split at hg
    · rename_i hcond
      simp only [List.mem_cons] at hg
      rcases hg with hg | hg
      · subst hg
        rw [finalizeGroup_chunks]
        exact ⟨by simpa [List.isEmpty_iff] using hcond.2, hcur⟩
      · refine ih [c] c.codeOnlyTokens (gid + 1) (codeTokenSum_singleton c).symm
          (fun d hd => hrest d (List.mem_cons_of_mem _ hd)) ?_ g hg
        rw [codeTokenSum_singleton]
        exact hrest c (List.mem_cons_self _ _)
    · rename_i hcond
      have hcase : ((curT + c.codeOnlyTokens : Int) ≤ M) ∨ cur.isEmpty = true := by
        rcases not_and_or.mp hcond with h | h
        · exact Or.inl (not_lt.mp h)
        · exact Or.inr (by simpa using h)
      refine ih (cur ++ [c]) (curT + c.codeOnlyTokens) gid ?_
        (fun d hd => hrest d (List.mem_cons_of_mem _ hd)) ?_ g hg
      · rw [hT, codeTokenSum_append, codeTokenSum_singleton]
      · rw [codeTokenSum_append, codeTokenSum_singleton]
        rcases hcase with hle | hempty
        · rw [hT] at hle
          exact_mod_cast hle
        · have : cur = [] := List.isEmpty_iff.mp hempty
          subst this
          simpa [codeTokenSum] using hrest c (List.mem_cons_self _ _)

/-- C6 (amended): every group built by `groupChunks` is non-empty,
and whenever every active chunk fits the per-group code budget
`maxTokensPerGroup - headerTokens`, the summed code-only tokens of
each group stay within that budget.  The recomputed `totalTokens` of
the final combined text, however, can exceed `maxTokensPerGroup`
because the separators, preambles and shell contexts added by
`finalizeGroup` are not charged against the grouping budget: see
`chunkGroup_totalTokens_exceeds_budget`. -/
theorem groupChunks_code_budget (tok : String → Nat) (cfg : ChunkingConfig)
    (activeChunks : List ChunkInfo) (contextHeader : String)
    (hfit : ∀ c ∈ activeChunks,
      (c.codeOnlyTokens : Int) ≤
        (cfg.maxTokensPerGroup : Int) - (tok contextHeader : Int)) :
    ∀ g ∈ groupChunks tok cfg activeChunks contextHeader,
      g.chunks ≠ [] ∧
      (codeTokenSum g.chunks : Int) ≤
        (cfg.maxTokensPerGroup : Int) - (tok contextHeader : Int) := by
  intro g hg
  simp only [groupChunks] at hg
  split at hg
  · simp at hg
  · rename_i hne
    have hnonempty : activeChunks ≠ [] := by simpa [List.isEmpty_iff] using hne
    obtain ⟨c0, hc0⟩ := List.exists_mem_of_ne_nil activeChunks hnonempty
    have hM : (0 : Int) ≤ (cfg.maxTokensPerGroup : Int) - (tok contextHeader : Int) :=
      le_trans (Int.ofNat_nonneg _) (hfit c0 hc0)
    exact groupChunksGo_bound tok contextHeader _ activeChunks [] 0 1 rfl hfit
      (by simpa [codeTokenSum] using hM) g hg

/-- Witness for `groupChunks_code_budget` at a concrete grouping. -/
theorem groupChunks_code_budget_witness :
    (codeTokenSum wGroup.chunks : Int) ≤
      (wCfg.maxTokensPerGroup : Int) - (tokByLength wHeader : Int) :=
  (groupChunks_code_budget tokByLength wCfg [wChunkA, wChunkB] wHeader (by decide)
    wGroup (by decide)).2

/-- C6 counterexample: on `exCode6` (two 4-character nodes under a
45-token group budget and a 38-token header) the grouped path emits
groups whose recomputed `totalTokens` — the tokenization of the final
combined text, equal to the stored `totalTokens` field — is 85,
exceeding `maxTokensPerGroup = 45`. -/
theorem chunkGroup_totalTokens_exceeds_budget :
    ((chunkFileWithGrouping exStrategy6 tokByLength exCfg6 exCode6 "f").groupedChunks.any
      (fun g => decide (exCfg6.maxTokensPerGroup < tokByLength g.combinedText))) = true ∧
    ((chunkFileWithGrouping exStrategy6 tokByLength exCfg6 exCode6 "f").groupedChunks.map
      (fun g => g.totalTokens)) = [85, 85] ∧
    exCfg6.maxTokensPerGroup = 45 := by
  refine ⟨by decide, by decide, rfl⟩

end Chunker

end Sentry

namespace Sentry

namespace Chunker

/-- C7 (amended): when `determineStrategyAndGroup` chooses `full_file`
there is exactly one group, and its combined text is the context
header followed by the reassembled code — the active chunks' texts
joined with single newlines, which is what the `full_file` branch
builds instead of the original source (skipped chunks and the original
inter-node spacing are dropped): see
`fullFile_combined_not_original`. -/
theorem fullFile_single_group_reassembled (tok : String → Nat) (cfg : ChunkingConfig)
    (activeChunks oversizedChunks : List ChunkInfo) (totalFileTokens : Nat)
    (contextHeader : String)
    (h : (determineStrategyAndGroup tok cfg activeChunks oversizedChunks
      totalFileTokens contextHeader).sendStrategy = SendStrategy.full_file) :
    (determineStrategyAndGroup tok cfg activeChunks oversizedChunks totalFileTokens
      contextHeader).finalGroups.map (fun g => g.combinedText) =
      [contextHeader ++ Strings.joinNl (activeChunks.map (fun c => c.originalText))] := by
  by_cases h1 : totalFileTokens + tok contextHeader ≤ cfg.maxTokensPerGroup ∧
      oversizedChunks.isEmpty = true
  · simp only [determineStrategyAndGroup, if_pos h1]
    rfl
  · exfalso
    simp only [determineStrategyAndGroup, if_neg h1] at h
    by_cases h2 : activeChunks.isEmpty = true ∧ ¬ oversizedChunks.isEmpty = true
    · rw [if_pos h2] at h
      simp at h
    · rw [if_neg h2] at h
      by_cases h3 : (groupChunks tok cfg activeChunks contextHeader).isEmpty = true ∧
          ¬ oversizedChunks.isEmpty = true
      · rw [if_pos h3] at h
        simp at h
      · rw [if_neg h3] at h
        by_cases h4 : (groupChunks tok cfg activeChunks contextHeader).length ≤ 1
        · rw [if_pos h4] at h
          simp at h
        · rw [if_neg h4] at h
          simp at h

/-- Witness for `fullFile_single_group_reassembled` at a concrete
`full_file` decision. -/
theorem fullFile_single_group_reassembled_witness :
    (determineStrategyAndGroup tokByLength wCfg [wChunkA, wChunkB] [] 5
      wHeader).finalGroups.map (fun g => g.combinedText) =
      [wHeader ++ Strings.joinNl ([wChunkA, wChunkB].map (fun c => c.originalText))] :=
  fullFile_single_group_reassembled tokByLength wCfg [wChunkA, wChunkB] [] 5 wHeader
    (by decide)

/-- C7 counterexample: chunking `exCode7` (nodes `a` and `b` separated
by a blank line) takes the `full_file` path, but the single group's
combined text ends with the reassembled `a\nb`, not with the original
source `a\n\nb`. -/
theorem fullFile_combined_not_original :
    (chunkFileWithGrouping exStrategy7 tokByLength exCfg7 exCode7 "g").sendStrategy =
      SendStrategy.full_file ∧
    ((chunkFileWithGrouping exStrategy7 tokByLength exCfg7 exCode7 "g").groupedChunks.map
      (fun g => Strings.endsWithStr g.combinedText exCode7)) = [false] := by
  refine ⟨by decide, by decide⟩

theorem fbGo_ne_nil (tok : String → Nat) (maxTokens : Nat) (ty : String) (row : Nat)
    (rem : List String) :
    ∀ (cur : List String) (i part : Nat), rem ≠ [] →
      fbGo tok maxTokens ty row rem cur i part ≠ [] := by
  induction rem with
  | nil => intro cur i part h; exact absurd rfl h
  | cons l rest ih =>
    intro cur i part _
    simp only [fbGo]
    split
    · simp
    · rename_i hcond
      have hrest : rest ≠ [] := fun he => hcond (Or.inr he)
      exact ih _ _ _ hrest

theorem fbGo_join (tok : String → Nat) (maxTokens : Nat) (ty : String) (row : Nat)
    (rem : List String) :
    ∀ (cur : List String) (i part : Nat), rem ≠ [] →
      Strings.joinNl ((fbGo tok maxTokens ty row rem cur i part).map
        (fun c => c.originalText)) = Strings.joinNl (cur ++ rem) := by
  induction rem with
  | nil => intro cur i part h; exact absurd rfl h
  | cons l rest ih =>
    intro cur i part _
    simp only [fbGo]
    split
    · rename_i hcond
      cases hr : rest with
      | nil =>
        subst hr
        simp only [fbGo, List.map_cons, List.map_nil]
        exact Strings.joinNl_singleton _
      | cons r rs =>
        subst hr
        have hne := fbGo_ne_nil tok maxTokens ty row (r :: rs) [] (i + 1) (part + 1)
          (by simp)
        have hmapne : (fbGo tok maxTokens ty row (r :: rs) [] (i + 1) (part + 1)).map
            (fun c => c.originalText) ≠ [] := by
          simpa using hne
        have hrec := ih [] (i + 1) (part + 1) (by simp)
        have hsplit1 : Strings.joinNl
            ((Strings.joinNl (cur ++ [l])) ::
              (fbGo tok maxTokens ty row (r :: rs) [] (i + 1) (part + 1)).map
                (fun c => c.originalText)) =
            Strings.joinNl (cur ++ [l]) ++ String.mk [Char.ofNat 10] ++
              Strings.joinNl (r :: rs) := by
          have := Strings.joinNl_append [Strings.joinNl (cur ++ [l])]
            ((fbGo tok maxTokens ty row (r :: rs) [] (i + 1) (part + 1)).map
              (fun c => c.originalText)) (by simp) hmapne
          simp only [List.singleton_append] at this
          rw [this, Strings.joinNl_singleton, hrec]
          simp
        have hsplit2 : Strings.joinNl (cur ++ l :: r :: rs) =
            Strings.joinNl (cur ++ [l]) ++ String.mk [Char.ofNat 10] ++
              Strings.joinNl (r :: rs) := by
          have h1 : cur ++ l :: r :: rs = (cur ++ [l]) ++ (r :: rs) := by simp
          rw [h1]
          exact Strings.joinNl_append (cur ++ [l]) (r :: rs) (by simp) (by simp)
        simp only [List.map_cons]
        rw [hsplit1, hsplit2]
    · rename_i hcond
      have hrest : rest ≠ [] := fun he => hcond (Or.inr he)
      have hrec := ih (cur ++ [l]) (i + 1) part hrest
      rw [hrec]
      congr 1
      simp

theorem fbGo_parts (tok : String → Nat) (maxTokens : Nat) (ty : String) (row : Nat)
    (rem : List String) :
    ∀ (cur : List String) (i part : Nat),
      ∀ c ∈ fbGo tok maxTokens ty row rem cur i part,
        c.isOversized = false ∧ ∃ n : Nat, c.type = ty ++ "_part_" ++ toString n := by
  induction rem with
  | nil => intro cur i part c hc; simp [fbGo] at hc
  | cons l rest ih =>
    intro cur i part c hc
    simp only [fbGo] at hc
    split at hc
    · rcases List.mem_cons.mp hc with hc | hc
      · subst hc
        exact ⟨rfl, part, rfl⟩
      · exact ih _ _ _ c hc
    · exact ih _ _ _ c hc

/-- C8 (amended): joining the fallback-split parts' `original_text`
with single newlines — the separators the line splitter consumed —
reconstructs the parent node's text exactly, and each part carries
type `<node_type>_part_<n>` and is marked non-oversized.  Plain
concatenation of the parts (without re-inserting the newlines) differs
from the parent text whenever there are two or more parts: see
`fallback_concat_not_parent`. -/
theorem fallbackSplitter_rejoins_and_labels (tok : String → Nat) (node : TopNode)
    (maxTokens : Nat) :
    Strings.joinNl ((fallbackSplitter tok node maxTokens).map
      (fun c => c.originalText)) = node.text ∧
    ∀ c ∈ fallbackSplitter tok node maxTokens,
      c.isOversized = false ∧ ∃ n : Nat, c.type = node.type ++ "_part_" ++ toString n := by
  constructor
  · have h := fbGo_join tok maxTokens node.type node.startRow (Strings.splitNl node.text)
      [] 0 1 (Strings.splitNl_ne_nil node.text)
    simpa [fallbackSplitter, Strings.joinNl_splitNl] using h
  · intro c hc
    exact fbGo_parts tok maxTokens node.type node.startRow _ _ _ _ c hc

/-- Witness for `fallbackSplitter_rejoins_and_labels` at the first
part of a concrete split. -/
theorem fallbackSplitter_rejoins_and_labels_witness :
    ((fallbackSplitter tokByLength exNode8 1).headD dummyChunk).isOversized = false ∧
    ∃ n : Nat, ((fallbackSplitter tokByLength exNode8 1).headD dummyChunk).type =
      exNode8.type ++ "_part_" ++ toString n :=
  (fallbackSplitter_rejoins_and_labels tokByLength exNode8 1).2
    ((fallbackSplitter tokByLength exNode8 1).headD dummyChunk) (by decide)

/-- C8 counterexample: splitting the two-line node `a\nb` with a
1-token limit yields the parts `a` and `b`; concatenating their
`original_text` in order gives `ab`, which is not the parent text. -/
theorem fallback_concat_not_parent :
    ((fallbackSplitter tokByLength exNode8 1).map (fun c => c.originalText)) =
      ["a", "b"] ∧
    (Strings.concatAll ((fallbackSplitter tokByLength exNode8 1).map
      (fun c => c.originalText)) == exNode8.text) = false := by
  refine ⟨by decide, by decide⟩

end Chunker

end Sentry

namespace Sentry

namespace Scoring

/-- C2 counterexample: when the JSON-safe chat helper exhausts its
retries and returns null, the final-review tail does not produce a
review with multiplier 1.0 — destructuring the null result throws a
TypeError, so the run aborts into the error state. -/
theorem finalReview_null_throws :
    performFinalReviewCall none = Except.error JsError.typeErrorDestructureNull ∧
    runFinalReviewScore 7 none = Except.error JsError.typeErrorDestructureNull :=
  ⟨rfl, rfl⟩

/-- C2 (amended): the 1.0 default applies only when the helper call
succeeds but the parsed JSON lacks `final_score_multiplier` or carries
a falsy (zero) value — `final_project_score` then equals the
preliminary score; when the helper returns null after exhausting its
retries, `performFinalReview` throws instead of defaulting, so the run
aborts. -/
theorem finalReview_multiplier_default (u : Usage) (preliminaryScore : ℚ) :
    performFinalReviewCall (some (some { final_score_multiplier := none }, u)) =
      Except.ok { multiplier := 1 } ∧
    performFinalReviewCall (some (some { final_score_multiplier := some 0 }, u)) =
      Except.ok { multiplier := 1 } ∧
    runFinalReviewScore preliminaryScore
      (some (some { final_score_multiplier := none }, u)) =
      Except.ok preliminaryScore ∧
    performFinalReviewCall none = Except.error JsError.typeErrorDestructureNull := by
  refine ⟨rfl, ?_, ?_, rfl⟩
  · simp [performFinalReviewCall]
  · simp [runFinalReviewScore, performFinalReviewCall, Except.map]

/-- C4: a single failed group makes `scoreFile` throw instead of
returning a complete `ScoredFile` — the failure branch records the
zeroed score with a null `usage`, and the `totalFileUsage` reduce then
dereferences `usage.prompt_tokens` on that null.  A fully successful
run of the same file returns normally. -/
theorem scoreFile_throws_on_group_failure :
    scoreFileRun exFileForScoring [none] = Except.error JsError.typeErrorNullUsage ∧
    (scoreFileRun exFileForScoring [some (exScore3, exUsage)]).isOk = true :=
  ⟨rfl, rfl⟩

/-- C3 counterexample: for a file scored through the per-file path with
one successful group (quality 8, maintainability 6, best practices 4,
complexity 5), `impact_score` is 30 while the product of the stored
`average_quality` and `average_complexity` fields is 8 · 5 = 40. -/
theorem impact_not_product_of_fields :
    (scoreFileRun exFileForScoring [some (exScore3, exUsage)]).map
      (fun sf => (sf.impactScore, sf.averageQuality * sf.averageComplexity)) =
      Except.ok (30, 40) ∧
    ((30 : ℚ) = 40) = False := by
  constructor
  · simp only [scoreFileRun, exFileForScoring, exScore3, exUsage, mkGroupResult,
      positiveComplexityGroups, sumUsages, addUsage, List.zip, List.zipWith, List.map,
      List.filter, List.sum_cons, List.sum_nil, List.length, List.foldlM, Except.map]
    norm_num
  · simp only [eq_iff_iff, iff_false]
    norm_num

end Scoring

end Sentry

namespace Sentry

namespace Scoring

/-- C3 (amended): on the batched path (`attemptBatchScoring`),
`impact_score` equals the product of the stored `average_quality` and
`average_complexity` fields exactly.  On the per-file chunk-group path
(`scoreFile`) the stored fields are plain per-group means —
`average_quality` over `code_quality_score` alone and
`average_complexity` over all groups — while `impact_score` is built
from the positive-complexity groups and the three-axis quality mean,
so the field identity holds there only in special cases, for instance
when every group scores with positive complexity and equal quality,
maintainability and best-practices values. -/
theorem impact_product_cases :
    (∀ (fg : FileForScoring) (review : AIScore) (u : Usage) (isRetry : Bool),
      (batchScoredFile fg review u isRetry).impactScore =
        (batchScoredFile fg review u isRetry).averageQuality *
          (batchScoredFile fg review u isRetry).averageComplexity) ∧
    (∀ (fg : FileForScoring) (outcomes : List (Option (AIScore × Usage)))
        (sf : ScoredFile),
      scoreFileRun fg outcomes = Except.ok sf →
      (∀ o ∈ outcomes, ∃ s u, o = some (s, u) ∧ 0 < s.complexity_score ∧
        s.code_quality_score = s.maintainability_score ∧
        s.maintainability_score = s.best_practices_adherence) →
      sf.impactScore = sf.averageQuality * sf.averageComplexity) := by
  constructor
  · intro fg review u isRetry
    rfl
  · intro fg outcomes sf hok hout
    simp only [scoreFileRun] at hok
    set gs := (fg.groupedChunks.zip outcomes).map (fun p => mkGroupResult p.1 p.2)
      with hgs
    have hprops : ∀ g ∈ gs, 0 < g.score.complexity_score ∧
        g.score.code_quality_score = g.score.maintainability_score ∧
        g.score.maintainability_score = g.score.best_practices_adherence := by
      intro g hg
      rw [hgs] at hg
      obtain ⟨p, hp, hpe⟩ := List.mem_map.mp hg
      obtain ⟨s, u', hsome, hpos, hqm, hmb⟩ := hout p.2 (List.of_mem_zip hp).2
      subst hpe
      rw [hsome]
      simpa [mkGroupResult] using ⟨hpos, hqm, hmb⟩
    cases hsum : sumUsages gs with
    | none =>
      rw [hsum] at hok
      cases hok
    | some tu =>
      rw [hsum] at hok
      have hsf := (Except.ok.inj hok).symm
      subst hsf
      have hfilter : positiveComplexityGroups gs = gs := by
        apply List.filter_eq_self.mpr
        intro g hg
        simpa using (hprops g hg).1
      have hmapeq : gs.map (fun g =>
          g.score.code_quality_score + g.score.maintainability_score +
            g.score.best_practices_adherence) =
          gs.map (fun g => 3 * g.score.code_quality_score) := by
        apply List.map_congr_left
        intro g hg
        obtain ⟨-, hqm, hmb⟩ := hprops g hg
        rw [← hqm, ← hqm.trans hmb]
        ring
      simp only [hfilter, hmapeq]
      rw [List.sum_map_mul_left]
      rw [mul_comm ((gs.length : ℚ)) 3]
      rw [mul_div_mul_left _ _ (by norm_num : (3 : ℚ) ≠ 0)]

/-- Witness for `impact_product_cases`: the per-file identity at a
concrete run whose single group has `complexity 5` and all quality
axes equal to 6. -/
theorem impact_product_cases_witness :
    wScoredEq.impactScore = wScoredEq.averageQuality * wScoredEq.averageComplexity := by
  apply impact_product_cases.2 exFileForScoring [some (exScoreEq, exUsage)] wScoredEq
  · rfl
  · intro o ho
    simp only [List.mem_singleton] at ho
    subst ho
    exact ⟨exScoreEq, exUsage, rfl, by norm_num [exScoreEq], rfl, rfl⟩

end Scoring

end Sentry

namespace Sentry

namespace Scoring

/-- The aggregation fold accumulates exactly the sums of the per-file
weighted averages. -/
theorem aggregate_fields (l : List ScoredFile) :
    ∀ acc : AggAcc,
      (l.foldl aggStep acc).totalTokenWeight =
        acc.totalTokenWeight + (l.map (fun f => (f.totalOriginalTokens : ℚ))).sum ∧
      (l.foldl aggStep acc).weightedComplexity =
        acc.weightedComplexity + (l.map (fun f =>
          groupTokenWeightedAvg (fun s => s.complexity_score) f *
            (f.totalOriginalTokens : ℚ))).sum ∧
      (l.foldl aggStep acc).weightedQuality =
        acc.weightedQuality + (l.map (fun f =>
          groupTokenWeightedAvg (fun s => s.code_quality_score) f *
            (f.totalOriginalTokens : ℚ))).sum ∧
      (l.foldl aggStep acc).weightedMaintainability =
        acc.weightedMaintainability + (l.map (fun f =>
          groupTokenWeightedAvg (fun s => s.maintainability_score) f *
            (f.totalOriginalTokens : ℚ))).sum ∧
      (l.foldl aggStep acc).weightedBestPractices =
        acc.weightedBestPractices + (l.map (fun f =>
          groupTokenWeightedAvg (fun s => s.best_practices_adherence) f *
            (f.totalOriginalTokens : ℚ))).sum := by
  induction l with
  | nil => intro acc; simp
  | cons f rest ih =>
    intro acc
    simp only [List.foldl_cons, List.map_cons, List.sum_cons]
    obtain ⟨h1, h2, h3, h4, h5⟩ := ih (aggStep acc f)
    refine ⟨?_, ?_, ?_, ?_, ?_⟩
    · rw [h1]; simp only [aggStep]; ring
    · rw [h2]; simp only [aggStep]; ring
    · rw [h3]; simp only [aggStep]; ring
    · rw [h4]; simp only [aggStep]; ring
    · rw [h5]; simp only [aggStep]; ring

/-- C9: whenever the summed file-token weight is positive, each axis of
the project profile equals the file-token-weighted mean (weight
`totalOriginalTokens`) of the per-file group-token-weighted averages
of that axis, and the preliminary project score is
`0.40·complexity + 0.25·quality + 0.15·maintainability +
0.20·best_practices` over that profile. -/
theorem profile_weighted_means_and_score (scoredFiles : List ScoredFile)
    (hw : 0 < (aggregate scoredFiles).totalTokenWeight) :
    (finalProfile scoredFiles).complexity =
      weightedMeanBy (fun f => (f.totalOriginalTokens : ℚ))
        (groupTokenWeightedAvg (fun s => s.complexity_score)) scoredFiles ∧
    (finalProfile scoredFiles).quality =
      weightedMeanBy (fun f => (f.totalOriginalTokens : ℚ))
        (groupTokenWeightedAvg (fun s => s.code_quality_score)) scoredFiles ∧
    (finalProfile scoredFiles).maintainability =
      weightedMeanBy (fun f => (f.totalOriginalTokens : ℚ))
        (groupTokenWeightedAvg (fun s => s.maintainability_score)) scoredFiles ∧
    (finalProfile scoredFiles).best_practices =
      weightedMeanBy (fun f => (f.totalOriginalTokens : ℚ))
        (groupTokenWeightedAvg (fun s => s.best_practices_adherence)) scoredFiles ∧
    preliminaryProjectScore scoredFiles =
      (finalProfile scoredFiles).complexity * (40 / 100) +
      (finalProfile scoredFiles).quality * (25 / 100) +
      (finalProfile scoredFiles).maintainability * (15 / 100) +
      (finalProfile scoredFiles).best_practices * (20 / 100) := by
  obtain ⟨h1, h2, h3, h4, h5⟩ := aggregate_fields scoredFiles
    { totalTokenWeight := 0, weightedComplexity := 0, weightedQuality := 0,
      weightedMaintainability := 0, weightedBestPractices := 0 }
  have h1' : (aggregate scoredFiles).totalTokenWeight =
      (scoredFiles.map (fun f => (f.totalOriginalTokens : ℚ))).sum := by
    have h := h1; rw [zero_add] at h; exact h
  have h2' : (aggregate scoredFiles).weightedComplexity =
      (scoredFiles.map (fun f =>
        groupTokenWeightedAvg (fun s => s.complexity_score) f *
          (f.totalOriginalTokens : ℚ))).sum := by
    have h := h2; rw [zero_add] at h; exact h
  have h3' : (aggregate scoredFiles).weightedQuality =
      (scoredFiles.map (fun f =>
        groupTokenWeightedAvg (fun s => s.code_quality_score) f *
          (f.totalOriginalTokens : ℚ))).sum := by
    have h := h3; rw [zero_add] at h; exact h
  have h4' : (aggregate scoredFiles).weightedMaintainability =
      (scoredFiles.map (fun f =>
        groupTokenWeightedAvg (fun s => s.maintainability_score) f *
          (f.totalOriginalTokens : ℚ))).sum := by
    have h := h4; rw [zero_add] at h; exact h
  have h5' : (aggregate scoredFiles).weightedBestPractices =
      (scoredFiles.map (fun f =>
        groupTokenWeightedAvg (fun s => s.best_practices_adherence) f *
          (f.totalOriginalTokens : ℚ))).sum := by
    have h := h5; rw [zero_add] at h; exact h
  refine ⟨?_, ?_, ?_, ?_, rfl⟩
  · have hc : (finalProfile scoredFiles).complexity =
        (aggregate scoredFiles).weightedComplexity /
          (aggregate scoredFiles).totalTokenWeight := by
      simp only [finalProfile]
      rw [if_pos hw]
    rw [hc, h1', h2']
    rfl
  · have hc : (finalProfile scoredFiles).quality =
        (aggregate scoredFiles).weightedQuality /
          (aggregate scoredFiles).totalTokenWeight := by
      simp only [finalProfile]
      rw [if_pos hw]
    rw [hc, h1', h3']
    rfl
  · have hc : (finalProfile scoredFiles).maintainability =
        (aggregate scoredFiles).weightedMaintainability /
          (aggregate scoredFiles).totalTokenWeight := by
      simp only [finalProfile]
      rw [if_pos hw]
    rw [hc, h1', h4']
    rfl
  · have hc : (finalProfile scoredFiles).best_practices =
        (aggregate scoredFiles).weightedBestPractices /
          (aggregate scoredFiles).totalTokenWeight := by
      simp only [finalProfile]
      rw [if_pos hw]
    rw [hc, h1', h5']
    rfl

/-- Witness for `profile_weighted_means_and_score` on a one-file
project with positive token weight. -/
theorem profile_weighted_means_and_score_witness :
    (finalProfile [wAggFile]).complexity =
      weightedMeanBy (fun f => (f.totalOriginalTokens : ℚ))
        (groupTokenWeightedAvg (fun s => s.complexity_score)) [wAggFile] := by
  refine (profile_weighted_means_and_score [wAggFile] ?_).1
  simp [aggregate, aggStep, wAggFile]

end Scoring

end Sentry

namespace Sentry

namespace Server

/-- C1: with the directory-traversal check commented out in the
file-content handler (server.ts lines 295-297), a filePath whose
resolution escapes the repository cache directory is served anyway:
the concrete escape request is answered with status 200 and the target
file's bytes, the resolved path provably lies outside the repository
root, and in general the handler only ever answers 200, 400 or 404 —
never the specified 403. -/
theorem fileContent_pathEscape_served :
    (fileContentHandler exRunStore exFileSystem "run1"
      (some "../../../../etc/passwd")).status = 200 ∧
    (fileContentHandler exRunStore exFileSystem "run1"
      (some "../../../../etc/passwd")).body = "root:x:0:0:root:/root:/bin/bash" ∧
    Strings.startsWithStr
      (resolvePath (LOCAL_REPO_DIR ++ "/" ++ "myrepo") "../../../../etc/passwd")
      (LOCAL_REPO_DIR ++ "/" ++ "myrepo" ++ "/") = false ∧
    (∀ (store : String → Option RunStateFC) (fileSystem : String → Option String)
      (runId : String) (filePath : Option String),
      (fileContentHandler store fileSystem runId filePath).status = 200 ∨
      (fileContentHandler store fileSystem runId filePath).status = 400 ∨
      (fileContentHandler store fileSystem runId filePath).status = 404) := by
  refine ⟨by decide, by decide, by decide, ?_⟩
  intro store fileSystem runId filePath
  cases filePath with
  | none => right; left; rfl
  | some fp =>
    by_cases hfp : fp = ""
    · right; left; simp [fileContentHandler, hfp]
    · cases hs : store runId with
      | none =>
        right; right
        simp [fileContentHandler, hfp, hs]
      | some st =>
        cases hf : fileSystem
            (resolvePath (LOCAL_REPO_DIR ++ "/" ++ st.repoName) fp) with
        | none =>
          right; right
          simp [fileContentHandler, hfp, hs, hf]
        | some content =>
          left
          simp [fileContentHandler, hfp, hs, hf]

/-- C10 counterexample: the scorecard of the run contains
`src/a/util.ts`, so a request for `util.ts` matches an existing scored
file by suffix, yet the handler answers 404: the exact-match lookup of
the repository metadata runs before the suffix check and the bare name
is not a repository file. -/
theorem scoreFile_suffix_match_but_404 :
    Strings.endsWithStr "src/a/util.ts" "util.ts" = true ∧
    scoreFileHandler (some exRunStateSF) (some exMetadata) (some "util.ts") =
      ScoreFileResult.notFoundFile := by
  refine ⟨by decide, by decide⟩

/-- C10 (amended): when, in addition to an existing scored file whose
path ends with the requested filePath (including a different file
whose longer path merely has it as a suffix), the requested filePath
also names a repository file by exact relative match, the handler
returns the first suffix-matching existing ScoredFile with status 200,
performing no new scoring work and leaving the scorecard unchanged. -/
theorem scoreFile_returns_existing_on_suffix (st : RunStateSF) (md : RepoMetadata)
    (fp : String) (scoredFiles : List Scoring.ScoredFile)
    (existing : Scoring.ScoredFile) (fileToScore : RepoFileEntry)
    (hfp : fp ≠ "")
    (hmd : md.allFiles.find? (fun f => f.relative == fp) = some fileToScore)
    (hsc : st.scoredFiles = some scoredFiles)
    (hfind : scoredFiles.find? (fun sf => Strings.endsWithStr sf.filePath fp) =
      some existing) :
    scoreFileHandler (some st) (some md) (some fp) =
      ScoreFileResult.okExisting existing := by
  simp only [scoreFileHandler, if_neg hfp, hmd, hsc, hfind]

/-- Witness for `scoreFile_returns_existing_on_suffix`: the exact-path
request for `src/a/util.ts` returns the existing scored file. -/
theorem scoreFile_returns_existing_on_suffix_witness :
    scoreFileHandler (some exRunStateSF) (some exMetadata) (some "src/a/util.ts") =
      ScoreFileResult.okExisting exScoredUtil :=
  scoreFile_returns_existing_on_suffix exRunStateSF exMetadata "src/a/util.ts"
    [exScoredUtil] exScoredUtil
    { relative := "src/a/util.ts", absolute := "/srv/repo_cache/myrepo/src/a/util.ts" }
    (by decide) rfl rfl rfl

end Server

end Sentry

namespace Sentry

/-- Witness for `finalReview_multiplier_default` at a concrete usage
value and preliminary score. -/
theorem finalReview_multiplier_default_witness :
    Scoring.runFinalReviewScore 7
      (some (some { final_score_multiplier := none }, Scoring.exUsage)) =
      Except.ok 7 :=
  (Scoring.finalReview_multiplier_default Scoring.exUsage 7).2.2.1

end Sentry
